import Mathlib

/-!
Verification development for the jsh shell execution core.

Shallow embedding of the command-chain / pipeline subsystem
(`PipelineManager`, `CommandExecutor`, `ProcessManager`).  Strings are
embedded as `List Char`; the effectful pieces (process spawning, file
opening, close events) are abstracted as explicit oracles and event
lists, while every piece of control flow and string manipulation is
translated line by line from the TypeScript source.
-/

namespace Jsh

/-- Decidable equality for `Except`, used to evaluate parser results on
concrete inputs. -/
instance {ε α : Type} [DecidableEq ε] [DecidableEq α] :
    DecidableEq (Except ε α) := fun x y =>
  match x, y with
  | Except.ok a, Except.ok b =>
    if h : a = b then isTrue (by rw [h])
    else isFalse (by intro hh; cases hh; exact h rfl)
  | Except.error a, Except.error b =>
    if h : a = b then isTrue (by rw [h])
    else isFalse (by intro hh; cases hh; exact h rfl)
  | Except.ok _, Except.error _ => isFalse (by intro hh; cases hh)
  | Except.error _, Except.ok _ => isFalse (by intro hh; cases hh)

/-- The double-quote character (Char 34). -/
def dq : Char := Char.ofNat 34

/-- The single-quote character (Char 39). -/
def sq : Char := Char.ofNat 39

/-- Model of the JavaScript whitespace class used by `trim` and the
`\s` regex class, restricted to the characters that occur in shell
input. -/
def isWsChar (c : Char) : Bool :=
  c = ' ' || c = '\t' || c = '\n' || c = '\r'

/-- Model of `String.prototype.trim`. -/
def trimChars (s : List Char) : List Char :=
  ((s.dropWhile isWsChar).reverse.dropWhile isWsChar).reverse

/-- Helper for `normalizeInput`: replaces each maximal whitespace run by
a single space.  The boolean tracks whether the previous character was
whitespace. -/
def collapseWsAux : Bool → List Char → List Char
  | _, [] => []
  | prevWs, c :: rest =>
    if isWsChar c then
      if prevWs then collapseWsAux true rest
      else ' ' :: collapseWsAux true rest
    else c :: collapseWsAux false rest

/-- `input.trim().replace(/\s+/g, ' ')` from `PipelineManager.parsePipeline`. -/
def normalizeInput (s : List Char) : List Char :=
  collapseWsAux false (trimChars s)

/-- Does the two-character sequence `a b` occur in the list?  Used to
model the regex alternatives `&&` and `||` and `String.includes`. -/
def containsPair (a b : Char) : List Char → Bool
  | [] => false
  | [_] => false
  | c :: c2 :: rest => (c = a && c2 = b) || containsPair a b (c2 :: rest)

/-- `PipelineManager.isCommandChain`: the regex test `/&&|\|\||;/.test(input)`,
i.e. the input contains `&&`, `||` or `;` as a substring (anywhere,
quotes included). -/
def isCommandChain (s : List Char) : Bool :=
  containsPair '&' '&' s || containsPair '|' '|' s || s.any (fun c => c = ';')

/-- `CommandExecutor.isPipelineCommand`:
`/[|><&;"']/.test(command) || command.includes(&&) || command.includes(||)`. -/
def isPipelineCommand (s : List Char) : Bool :=
  s.any (fun c => c = '|' || c = '>' || c = '<' || c = '&' || c = ';' || c = dq || c = sq)
    || containsPair '&' '&' s || containsPair '|' '|' s

/-- The chain operators of `types/shell.ts` (`ChainOperator`). -/
inductive ChainOperator
  | andOp
  | orOp
  | semi
deriving DecidableEq, Repr, Inhabited

/-- One link of a command chain (`CommandChain` in `types/shell.ts`):
the pipeline text plus the operator RELATING IT TO THE NEXT link
(`undefined` for the final link). -/
structure CommandChain where
  pipeline : List Char
  operator : Option ChainOperator
deriving DecidableEq, Repr, Inhabited

/-- `CommandResult` of `types/shell.ts`. -/
structure CommandResult where
  stdout : List Char
  stderr : List Char
  exitCode : Nat
deriving DecidableEq, Repr, Inhabited

/-- Scanner equivalent of the split
`input.split(/(\s*(?:&&|\|\||;)\s*)/)` of
`PipelineManager.parseCommandChain`: cut the input at every occurrence
of `&&`, `||` or `;` (two-character operators matched atomically), and
record the operator that followed each piece.  The `\s*` context of the
regex separator is immaterial because each piece is trimmed
afterwards. -/
def chainSplitAux : List Char → List Char → List (List Char × Option ChainOperator)
  | cur, [] => [(cur.reverse, none)]
  | cur, c :: rest =>
    if c = ';' then (cur.reverse, some ChainOperator.semi) :: chainSplitAux [] rest
    else
      match rest with
      | [] => [((c :: cur).reverse, none)]
      | c2 :: rest2 =>
        if c = '&' ∧ c2 = '&' then
          (cur.reverse, some ChainOperator.andOp) :: chainSplitAux [] rest2
        else if c = '|' ∧ c2 = '|' then
          (cur.reverse, some ChainOperator.orOp) :: chainSplitAux [] rest2
        else chainSplitAux (c :: cur) (c2 :: rest2)

/-- `PipelineManager.parseCommandChain`: split at the operators, trim
each piece, and keep only the non-empty commands (an empty piece is
dropped together with its operator, mirroring the `if (command)`
guard over the parts \x7bcommand, operator\x7d pairs). -/
def parseCommandChain (input : List Char) : List CommandChain :=
  (chainSplitAux [] input).filterMap (fun p =>
    let cmd := trimChars p.1
    if cmd.isEmpty then none else some ⟨cmd, p.2⟩)

/-- Quote-aware split at `|` (`PipelineManager.splitByPipes`).  The
first argument is the active quote character, if any; segments are
trimmed and empty segments dropped, as in the source. -/
def splitByPipesAux : Option Char → List Char → List Char → List (List Char)
  | _, cur, [] =>
    if (trimChars cur.reverse).isEmpty then [] else [trimChars cur.reverse]
  | none, cur, c :: rest =>
    if c = dq || c = sq then splitByPipesAux (some c) (c :: cur) rest
    else if c = '|' then
      if (trimChars cur.reverse).isEmpty then splitByPipesAux none [] rest
      else trimChars cur.reverse :: splitByPipesAux none [] rest
    else splitByPipesAux none (c :: cur) rest
  | some q, cur, c :: rest =>
    if c = q then splitByPipesAux none (c :: cur) rest
    else splitByPipesAux (some q) (c :: cur) rest

/-- `PipelineManager.splitByPipes`. -/
def splitByPipes (input : List Char) : List (List Char) :=
  splitByPipesAux none [] input

/-- Push the accumulated token (if non-empty) in front of the remaining
token list; mirrors the repeated `if (current) tokens.push(current)`
of `PipelineManager.tokenize`. -/
def pushTok (cur : List Char) (rest : List (List Char)) : List (List Char) :=
  if cur.isEmpty then rest else cur.reverse :: rest

/-- The scanner of `PipelineManager.tokenize`: quote characters toggle
quote state and are dropped from the token; outside quotes, `>>`, `>`
and `<` become standalone tokens and a space ends the current token;
inside quotes every character (spaces included) is appended. -/
def tokenizeAux : Option Char → List Char → List Char → List (List Char)
  | _, cur, [] => pushTok cur []
  | some q, cur, c :: rest =>
    if c = q then tokenizeAux none cur rest
    else tokenizeAux (some q) (c :: cur) rest
  | none, cur, c :: rest =>
    if c = dq || c = sq then tokenizeAux (some c) cur rest
    else if c = '>' then
      match rest with
      | c2 :: rest2 =>
        if c2 = '>' then pushTok cur (['>', '>'] :: tokenizeAux none [] rest2)
        else pushTok cur (['>'] :: tokenizeAux none [] (c2 :: rest2))
      | [] => pushTok cur (['>'] :: tokenizeAux none [] [])
    else if c = '<' then pushTok cur (['<'] :: tokenizeAux none [] rest)
    else if c = ' ' then pushTok cur (tokenizeAux none [] rest)
    else tokenizeAux none (c :: cur) rest

/-- `PipelineManager.tokenize`. -/
def tokenize (input : List Char) : List (List Char) :=
  tokenizeAux none [] input

/-- The three redirection kinds (`RedirectionType` of `types/shell.ts`:
the token strings `>`, `>>`, `<`). -/
inductive RedirectionType
  | out
  | appendOut
  | input
deriving DecidableEq, Repr, Inhabited

/-- `Redirection` of `PipelineManager.ts` (`append` records `>>` vs `>`). -/
structure Redirection where
  type : RedirectionType
  target : List Char
  append : Bool
deriving DecidableEq, Repr, Inhabited

/-- `PipelineCommand` of `PipelineManager.ts`. -/
structure PipelineCommand where
  command : List Char
  args : List (List Char)
  redirections : List Redirection
deriving DecidableEq, Repr, Inhabited

/-- `Pipeline` of `PipelineManager.ts`. -/
structure Pipeline where
  commands : List PipelineCommand
  background : Bool
deriving DecidableEq, Repr, Inhabited

/-- Is this token one of the redirection operator tokens? -/
def isRedirTok (t : List Char) : Bool :=
  t = ['>'] || t = ['>', '>'] || t = ['<']

/-- Redirection kind of an operator token. -/
def redirTypeOf (t : List Char) : RedirectionType :=
  if t = ['>', '>'] then RedirectionType.appendOut
  else if t = ['<'] then RedirectionType.input
  else RedirectionType.out

/-- The thrown message
`Missing target for redirection OPERATOR` of `PipelineManager.parseCommand`
(the operator appears between single quotes in the source text). -/
def missingTargetMsg (t : List Char) : List Char :=
  (String.toList "Missing target for redirection ") ++ sq :: t ++ [sq]

/-- The argument/redirection collection loop of
`PipelineManager.parseCommand` (tokens after the command name): a
redirection token consumes the following token as target, throwing when
there is none; every other token is an argument. -/
def parseCmdLoop : List (List Char) → Except (List Char) (List (List Char) × List Redirection)
  | [] => Except.ok ([], [])
  | t :: rest =>
    if isRedirTok t then
      match rest with
      | [] => Except.error (missingTargetMsg t)
      | tgt :: rest2 =>
        (parseCmdLoop rest2).map (fun p =>
          (p.1, ⟨redirTypeOf t, tgt, t = ['>', '>']⟩ :: p.2))
    else
      (parseCmdLoop rest).map (fun p => (t :: p.1, p.2))

/-- `PipelineManager.parseCommand`: tokenize one pipe segment; `none`
when there are no tokens; may throw a missing-target error. -/
def parseCommand (segment : List Char) : Except (List Char) (Option PipelineCommand) :=
  match tokenize segment with
  | [] => Except.ok none
  | cmd :: rest =>
    (parseCmdLoop rest).map (fun p => some ⟨cmd, p.1, p.2⟩)

/-- The segment loop of `PipelineManager.parsePipeline`: parse each pipe
segment (trimmed), keep the non-null commands, propagate thrown
errors. -/
def collectCommands : List (List Char) → Except (List Char) (List PipelineCommand)
  | [] => Except.ok []
  | s :: rest => do
    let c ← parseCommand (trimChars s)
    let cs ← collectCommands rest
    match c with
    | some pc => Except.ok (pc :: cs)
    | none => Except.ok cs

/-- `normalized.endsWith(&)` preceded by a space, i.e. the
` &` suffix test of `PipelineManager.parsePipeline`. -/
def endsWithAmp (s : List Char) : Bool :=
  match s.reverse with
  | '&' :: ' ' :: _ => true
  | _ => false

/-- `PipelineManager.parsePipeline`: normalize whitespace, strip a
trailing ` &` (background marker), split at unquoted pipes, and parse
each segment; a malformed redirection makes the whole parse throw. -/
def parsePipeline (input : List Char) : Except (List Char) Pipeline :=
  let normalized := normalizeInput input
  let background := endsWithAmp normalized
  let commandLine :=
    if background then trimChars (normalized.take (normalized.length - 2))
    else normalized
  (collectCommands (splitByPipes commandLine)).map (fun cmds =>
    ⟨cmds, background⟩)

/-- The `shouldExecute` decision of
`PipelineManager.executeCommandChain`: after `&&` run only on success,
after `||` run only on failure, otherwise run unconditionally. -/
def shouldExec (prevOp : Option ChainOperator) (lastExit : Nat) : Bool :=
  match prevOp with
  | some ChainOperator.andOp => lastExit = 0
  | some ChainOperator.orOp => !(lastExit = 0)
  | _ => true

/-- Output accumulation of `executeCommandChain`:
`combined += (combined ? newline : empty) + out`, applied only when
`out` is non-empty. -/
def combineOut (acc out : List Char) : List Char :=
  if out.isEmpty then acc
  else if acc.isEmpty then out
  else acc ++ '\n' :: out

/-- The result of a link that was skipped because the previous `&&`
link failed: the source overwrites `lastResult` with exit code 1. -/
def skipFailResult : CommandResult := ⟨[], [], 1⟩

/-- The loop of `PipelineManager.executeCommandChain`, parameterised by
the pipeline runner `runP` (parse + execute of one link, which may
throw a parse error).  State: operator of the previous link, last
result, combined stdout, combined stderr. -/
def chainLoop (runP : List Char → Except (List Char) CommandResult) :
    Option ChainOperator → CommandResult → List Char → List Char →
    List CommandChain → Except (List Char) CommandResult
  | _, last, so, se, [] => Except.ok ⟨so, se, last.exitCode⟩
  | prevOp, last, so, se, link :: rest =>
    if shouldExec prevOp last.exitCode then
      match runP link.pipeline with
      | Except.error e => Except.error e
      | Except.ok r =>
        chainLoop runP link.operator r (combineOut so r.stdout)
          (combineOut se r.stderr) rest
    else
      let last' :=
        if prevOp = some ChainOperator.andOp then skipFailResult else last
      chainLoop runP link.operator last' so se rest

/-- Parse-then-execute of one chain link, `exec` abstracting
`PipelineManager.executePipeline` (which never throws; all its spawn
failures are folded into the returned `CommandResult`). -/
def pipelineRunner (exec : Pipeline → CommandResult)
    (s : List Char) : Except (List Char) CommandResult :=
  (parsePipeline s).map exec

/-- `PipelineManager.executeCommandChain` over the abstract pipeline
executor. -/
def executeCommandChain (exec : Pipeline → CommandResult)
    (chains : List CommandChain) : Except (List Char) CommandResult :=
  chainLoop (pipelineRunner exec) none ⟨[], [], 0⟩ [] [] chains

/-- `PipelineManager.executeCommand`: dispatch between the chain
evaluator and a single pipeline. -/
def executeCommandPM (exec : Pipeline → CommandResult)
    (input : List Char) : Except (List Char) CommandResult :=
  if isCommandChain input then
    executeCommandChain exec (parseCommandChain input)
  else
    (parsePipeline input).map exec

/-- `Pipeline error: MESSAGE`, the wrapping applied by the catch block
of `CommandExecutor.execute`. -/
def pipelineErrMsg (e : List Char) : List Char :=
  (String.toList "Pipeline error: ") ++ e

/-- `CommandExecutor.execute`: pipeline-looking inputs go through the
`PipelineManager` with thrown errors caught and converted to an exit-1
result; other inputs go to the regular/interactive executor, abstracted
as `execReg`. -/
def executeCE (exec : Pipeline → CommandResult)
    (execReg : List Char → CommandResult) (input : List Char) : CommandResult :=
  if isPipelineCommand input then
    match executeCommandPM exec input with
    | Except.ok r => r
    | Except.error e => ⟨[], pipelineErrMsg e, 1⟩
  else execReg input

/-- Observable outcome of one spawned OS process: captured stdout and
stderr data and the argument of the `close` event (`null` when the
process was terminated by a signal). -/
structure ProcOutcome where
  stdout : List Char
  stderr : List Char
  closeCode : Option Nat
deriving DecidableEq, Repr, Inhabited

/-- The JavaScript coercion `code || 0` applied to the `close` code in
`executeCommandWithRedirections`, `executePipeChain` and
`CommandExecutor.executeInteractive`: a `null` code (signal-terminated
process) becomes 0. -/
def closeCodeOrZero (code : Option Nat) : Nat :=
  match code with
  | some n => n
  | none => 0

/-- The predicate of the `find` call
`redirections.find(r => r.type === out || r.type === appendOut)`. -/
def isOutputRedir (r : Redirection) : Bool :=
  decide (r.type = RedirectionType.out ∨ r.type = RedirectionType.appendOut)

/-- `redirections.find(r => r.type === out || r.type === appendOut)`:
the FIRST output redirection in list order. -/
def outputRedirectionOf (rs : List Redirection) : Option Redirection :=
  rs.find? isOutputRedir

/-- `redirections.find(r => r.type === input)`. -/
def inputRedirectionOf (rs : List Redirection) : Option Redirection :=
  rs.find? (fun r => decide (r.type = RedirectionType.input))

/-- The write-stream target chosen for a command: the target and append
flag of the first output redirection, if any (the
`fs.createWriteStream(target, append ? a : w)` call). -/
def effectiveOutputTarget (cmd : PipelineCommand) : Option (List Char × Bool) :=
  (outputRedirectionOf cmd.redirections).map (fun r => (r.target, r.append))

/-- Simplified text of the
`Cannot open TARGET for input` error (OS error detail abstracted). -/
def cannotOpenMsg (t : List Char) : List Char :=
  (String.toList "Cannot open ") ++ sq :: t ++ sq :: (String.toList " for input")

/-- The redirection preparation loop of
`executeCommandWithRedirections`: walks all redirections in order and
returns the target of the first input redirection whose `openSync`
fails (`openOk` abstracts the file system), which aborts execution. -/
def firstFailingInput (openOk : List Char → Bool) :
    List Redirection → Option (List Char)
  | [] => none
  | r :: rest =>
    if r.type = RedirectionType.input ∧ ¬ openOk r.target then some r.target
    else firstFailingInput openOk rest

/-- `PipelineManager.executeCommandWithRedirections` for a process whose
observable outcome is `proc`: a failing input redirection aborts with
exit 1; when an output redirection is present the stdout stream is
piped to the file and the captured stdout stays empty; the exit code is
`close code || 0`. -/
def executeCommandWithRedirections (openOk : List Char → Bool)
    (cmd : PipelineCommand) (proc : ProcOutcome) : CommandResult :=
  match firstFailingInput openOk cmd.redirections with
  | some tgt => ⟨[], cannotOpenMsg tgt, 1⟩
  | none =>
    let captured :=
      match effectiveOutputTarget cmd with
      | some _ => []
      | none => proc.stdout
    ⟨trimChars captured, trimChars proc.stderr, closeCodeOrZero proc.closeCode⟩

/-- `PipelineManager.isJSCommand`. -/
def isJSCommand (command : List Char) : Bool :=
  command = String.toList "js"

/-- `PipelineManager.isNPMCommand`. -/
def isNPMCommand (command : List Char) : Bool :=
  (String.toList "npm:").isPrefixOf command

/-- `PipelineManager.hasJSCommands`. -/
def hasJSCommands (commands : List PipelineCommand) : Bool :=
  commands.any (fun cmd => isJSCommand cmd.command || isNPMCommand cmd.command)

/-- Abstract stage executors for the mixed (sequential) pipeline:
`execJS` is `executeJSCommand` (js / npm: stage with its piped input),
`execNoIn` is `executeCommandWithRedirections` as called for a first
regular stage (no piped input), `execIn` is `executeCommandWithInput`
(regular stage fed the previous stdout). -/
structure ExecOracles where
  execJS : PipelineCommand → List Char → CommandResult
  execNoIn : PipelineCommand → CommandResult
  execIn : PipelineCommand → List Char → CommandResult

/-- One stage of `executeMixedPipeline`: js / npm: stages get the
current piped input; the first regular stage runs without piped input;
later regular stages are fed the current input. -/
def runStage (o : ExecOracles) (isFirst : Bool) (input : List Char)
    (cmd : PipelineCommand) : CommandResult :=
  if isJSCommand cmd.command || isNPMCommand cmd.command then
    o.execJS cmd input
  else if isFirst then o.execNoIn cmd
  else o.execIn cmd input

/-- The loop of `PipelineManager.executeMixedPipeline`: strict
sequential composition with early exit on the first non-zero exit code,
each completed stage feeding its stdout to the next stage. -/
def mixedLoop (o : ExecOracles) :
    Bool → List Char → CommandResult → List PipelineCommand → CommandResult
  | _, _, finalResult, [] => finalResult
  | isFirst, input, _, cmd :: rest =>
    let r := runStage o isFirst input cmd
    if r.exitCode ≠ 0 then r
    else mixedLoop o false r.stdout r rest

/-- `PipelineManager.executeMixedPipeline` (initial input is the empty
string, initial result `exit 0`). -/
def executeMixedPipeline (o : ExecOracles)
    (commands : List PipelineCommand) : CommandResult :=
  mixedLoop o true [] ⟨[], [], 0⟩ commands

/-- The results of the stages that actually ran in
`executeMixedPipeline`, in order (a failing stage is the last entry). -/
def mixedTrace (o : ExecOracles) :
    Bool → List Char → List PipelineCommand → List CommandResult
  | _, _, [] => []
  | isFirst, input, cmd :: rest =>
    let r := runStage o isFirst input cmd
    if r.exitCode ≠ 0 then [r]
    else r :: mixedTrace o false r.stdout rest

/-- Per-pipe-chain observable environment: for each stage its captured
stdout / stderr data and `close` code, plus the order in which the
asynchronous `close` events fire (a permutation of the stage
indices). -/
structure PipeChainEnv where
  stdouts : List (List Char)
  stderrs : List (List Char)
  closeCodes : List (Option Nat)
  arrival : List Nat
deriving DecidableEq, Repr, Inhabited

/-- The `close`-event bookkeeping of `executePipeChain`: processed in
arrival order, only the last stage index assigns `finalExitCode`
(`code || 0`); the fold result is the value once every event has been
processed. -/
def closeFold (lastIdx : Nat) (codes : List (Option Nat))
    (arrival : List Nat) : Nat :=
  arrival.foldl
    (fun acc i => if i = lastIdx then closeCodeOrZero (codes.getD i none) else acc)
    0

/-- Common result construction of the OS-only pipe chain: stdout is
captured from the last stage only (empty if the last stage has an
output redirection), stderr is the combined stderr of all stages, exit
code comes from `closeFold`. -/
def pipeChainBody (commands : List PipelineCommand) (env : PipeChainEnv) :
    CommandResult :=
  let n := commands.length
  let lastCmd := commands.getD (n - 1) default
  let captured :=
    match outputRedirectionOf lastCmd.redirections with
    | some _ => []
    | none => env.stdouts.getD (n - 1) []
  ⟨trimChars captured, trimChars (env.stderrs.foldl (fun a b => a ++ b) []),
    closeFold (n - 1) env.closeCodes env.arrival⟩

/-- The OS-process branch of `PipelineManager.executePipeChain`: the
first stage honors an input redirection (failure to open resolves
immediately with exit 1); otherwise all stages run and the combined
result is `pipeChainBody`. -/
def executePipeChainOS (openOk : List Char → Bool)
    (commands : List PipelineCommand) (env : PipeChainEnv) : CommandResult :=
  match commands.head? with
  | none => pipeChainBody commands env
  | some c0 =>
    match inputRedirectionOf c0.redirections with
    | some r =>
      if openOk r.target then pipeChainBody commands env
      else ⟨[], cannotOpenMsg r.target, 1⟩
    | none => pipeChainBody commands env

/-- `PipelineManager.executePipeChain`: a pipeline containing js / npm:
stages degrades to the sequential mixed pipeline; otherwise the true
OS pipe chain runs. -/
def executePipeChain (o : ExecOracles) (openOk : List Char → Bool)
    (commands : List PipelineCommand) (env : PipeChainEnv) : CommandResult :=
  if hasJSCommands commands then executeMixedPipeline o commands
  else executePipeChainOS openOk commands env

/-- `PipelineManager.executePipeline`: empty pipelines fail, single
commands go through `executeCommandWithRedirections` (with `procFor`
abstracting the spawned process), longer ones through the pipe
chain. -/
def executePipeline (o : ExecOracles) (openOk : List Char → Bool)
    (procFor : PipelineCommand → ProcOutcome) (env : PipeChainEnv)
    (p : Pipeline) : CommandResult :=
  match p.commands with
  | [] => ⟨[], String.toList "No commands in pipeline", 1⟩
  | [c] => executeCommandWithRedirections openOk c (procFor c)
  | cs => executePipeChain o openOk cs env

/-- Executed/result trace of `executeCommandChain`: for each processed
link, whether it ran and the value of `lastResult` after it (the link
result when it ran, the overwritten/kept result when it was skipped);
a thrown parse error truncates the trace. -/
def chainTrace (runP : List Char → Except (List Char) CommandResult) :
    Option ChainOperator → CommandResult → List CommandChain →
    List (Bool × CommandResult)
  | _, _, [] => []
  | prevOp, last, link :: rest =>
    if shouldExec prevOp last.exitCode then
      match runP link.pipeline with
      | Except.error _ => []
      | Except.ok r => (true, r) :: chainTrace runP link.operator r rest
    else
      let last' :=
        if prevOp = some ChainOperator.andOp then skipFailResult else last
      (false, last') :: chainTrace runP link.operator last' rest

/-- Does `parsePipeline` succeed on this link text? -/
def parseOk (s : List Char) : Bool :=
  match parsePipeline s with
  | Except.ok _ => true
  | Except.error _ => false

/-- Job status of `ProcessManager.Job`. -/
inductive JobStatus
  | running
  | stopped
  | completed
deriving DecidableEq, Repr, Inhabited

/-- `Job` of `ProcessManager.ts` (process handle and timestamps
abstracted; `endTimeSet` records whether `endTime` was assigned). -/
structure Job where
  id : Nat
  command : List Char
  status : JobStatus
  background : Bool
  endTimeSet : Bool
deriving DecidableEq, Repr, Inhabited

/-- The mutable state of a `ProcessManager` instance: the job table,
the id counter, and the `currentForegroundJob` reference (stored as a
job id; the source stores an object reference into the same table). -/
structure PMState where
  jobs : List Job
  nextJobId : Nat
  currentForegroundJob : Option Nat
deriving DecidableEq, Repr, Inhabited

/-- `this.jobs.get(id)`. -/
def getJob (st : PMState) (id : Nat) : Option Job :=
  st.jobs.find? (fun j => decide (j.id = id))

/-- In-place mutation of the job with the given id (the source mutates
the shared `Job` object). -/
def updateJob (st : PMState) (id : Nat) (f : Job → Job) : PMState :=
  { st with jobs := st.jobs.map (fun j => if j.id = id then f j else j) }

/-- `ProcessManager.getCurrentForegroundJob` (resolving the stored
reference in the table). -/
def getCurrentForegroundJob (st : PMState) : Option Job :=
  st.currentForegroundJob.bind (getJob st)

/-- `ProcessManager.killJob`: fails when the job is absent or not
`running`; otherwise sends the signal (`killOk` abstracts whether
`process.kill` throws), marks the job `stopped` and sets its end time.
Returns (success, new state, signals sent as (id, signal) pairs). -/
def killJob (killOk : Bool) (st : PMState) (id : Nat) (signal : List Char) :
    Bool × PMState × List (Nat × List Char) :=
  match getJob st id with
  | none => (false, st, [])
  | some j =>
    if j.status ≠ JobStatus.running then (false, st, [])
    else if killOk then
      (true,
        updateJob st id (fun j0 =>
          { j0 with status := JobStatus.stopped, endTimeSet := true }),
        [(id, signal)])
    else (false, st, [])

/-- `ProcessManager.suspendJob`: fails when the job is absent or not
`running`; otherwise sends SIGSTOP and marks the job `stopped`.  The
`currentForegroundJob` field is not touched. -/
def suspendJob (killOk : Bool) (st : PMState) (id : Nat) : Bool × PMState :=
  match getJob st id with
  | none => (false, st)
  | some j =>
    if j.status ≠ JobStatus.running then (false, st)
    else if killOk then
      (true, updateJob st id (fun j0 => { j0 with status := JobStatus.stopped }))
    else (false, st)

/-- The synchronous part of `ProcessManager.runForeground`: register a
new running foreground job and install it as the current foreground
job. -/
def runForegroundStart (st : PMState) (command : List Char) : PMState × Nat :=
  let id := st.nextJobId
  ({ st with
      jobs := st.jobs ++
        [{ id := id, command := command, status := JobStatus.running,
           background := false, endTimeSet := false }],
      nextJobId := id + 1,
      currentForegroundJob := some id }, id)

/-- The `exit` handler of `ProcessManager.runForeground` (the `error`
handler performs the same state updates): mark the job completed and
clear the current-foreground reference. -/
def runForegroundOnExit (st : PMState) (id : Nat) : PMState :=
  { updateJob st id (fun j0 =>
      { j0 with status := JobStatus.completed, endTimeSet := true }) with
    currentForegroundJob := none }

/-- The exit-code mapping of the `runForeground` resolve:
`code || (signal ? 1 : 0)` — a falsy (null or 0) close code falls back
to 1 exactly when a signal is present. -/
def runForegroundExitCode (code : Option Nat) (signal : Option (List Char)) :
    Nat :=
  match code with
  | some n =>
    if n = 0 then (match signal with | some _ => 1 | none => 0) else n
  | none => match signal with | some _ => 1 | none => 0

/-- The resolved value of `ProcessManager.runForeground`. -/
def runForegroundResult (stdout stderr : List Char) (code : Option Nat)
    (signal : Option (List Char)) : CommandResult :=
  ⟨trimChars stdout, trimChars stderr, runForegroundExitCode code signal⟩

/-- Combined-stdout accumulation over a trace: only executed links
contribute, via `combineOut` (skipped links add nothing). -/
def outFold (init : List Char) (tr : List (Bool × CommandResult)) : List Char :=
  tr.foldl (fun acc p => if p.1 then combineOut acc p.2.stdout else acc) init

/-- Combined-stderr accumulation over a trace. -/
def errFold (init : List Char) (tr : List (Bool × CommandResult)) : List Char :=
  tr.foldl (fun acc p => if p.1 then combineOut acc p.2.stderr else acc) init

/-- Exit code of the final `lastResult` after a trace (the initial
result when the trace is empty). -/
def lastExitOf (last : CommandResult) (tr : List (Bool × CommandResult)) :
    Nat :=
  ((tr.getLast?).getD (true, last)).2.exitCode

/-- The trace of `executeCommandChain` from its initial state
(`lastResult = exit 0`, no previous operator). -/
def chainTraceTop (exec : Pipeline → CommandResult)
    (chains : List CommandChain) : List (Bool × CommandResult) :=
  chainTrace (pipelineRunner exec) none ⟨[], [], 0⟩ chains

/-! ### General lemmas -/

/-- `find?` returns the element at the first index satisfying the
predicate. -/
theorem find?_eq_getD_of_first {α : Type} [Inhabited α] (p : α → Bool) :
    ∀ (l : List α) (i : Nat), i < l.length →
    p (l.getD i default) = true →
    (∀ j, j < i → p (l.getD j default) = false) →
    l.find? p = some (l.getD i default)
  | [], i, hi, _, _ => absurd hi (by simp)
  | a :: t, 0, _, hp, _ => by
    have ha : p a = true := by simpa [List.getD] using hp
    simp [List.find?_cons, ha, List.getD]
  | a :: t, i + 1, hi, hp, hall => by
    have ha : p a = false := by simpa [List.getD] using hall 0 (Nat.succ_pos i)
    have hi' : i < t.length := by simpa using hi
    have hp' : p (t.getD i default) = true := by
      simpa [List.getD_cons_succ] using hp
    have hall' : ∀ j, j < i → p (t.getD j default) = false := by
      intro j hj
      simpa [List.getD_cons_succ] using hall (j + 1) (Nat.succ_lt_succ hj)
    have ih := find?_eq_getD_of_first p t i hi' hp' hall'
    simp [List.find?_cons, ha, List.getD_cons_succ, ih]

/-- Looking up the updated id in the job table after an id-preserving
in-place update. -/
theorem find?_map_ite (id : Nat) (f : Job → Job)
    (hf : ∀ j, (f j).id = j.id) :
    ∀ l : List Job,
    (l.map (fun j => if j.id = id then f j else j)).find?
        (fun j => decide (j.id = id)) =
      (l.find? (fun j => decide (j.id = id))).map f
  | [] => by simp
  | j :: t => by
    by_cases hj : j.id = id
    · simp [List.find?_cons, hj, hf]
    · simp [List.find?_cons, hj, find?_map_ite id f hf t]

/-- `getJob` after `updateJob` at the same id. -/
theorem getJob_updateJob (st : PMState) (id : Nat) (f : Job → Job)
    (hf : ∀ j, (f j).id = j.id) :
    getJob (updateJob st id f) id = (getJob st id).map f := by
  simpa [getJob, updateJob] using find?_map_ite id f hf st.jobs

/-! ### C7: exit-code reporting for signal-terminated processes -/

/-- C7 (amended): a process terminated by a signal (null exit status)
is reported as a failure only by `ProcessManager.runForeground`, whose
resolve maps it to exit code 1; the `close` handlers of
`PipelineManager.executeCommandWithRedirections` (and of the pipe
chain, via the same `code || 0` coercion) map the null status to exit
code 0, indistinguishable from success. -/
theorem C7_signal_exit_code (so se sig : List Char)
    (openOk : List Char → Bool) (cmd : PipelineCommand)
    (h : firstFailingInput openOk cmd.redirections = none) :
    (runForegroundResult so se none (some sig)).exitCode = 1 ∧
    (runForegroundResult so se none (some sig)).exitCode ≠ 0 ∧
    (executeCommandWithRedirections openOk cmd ⟨so, se, none⟩).exitCode = 0 ∧
    closeCodeOrZero none = 0 := by
  refine ⟨rfl, by simp [runForegroundResult, runForegroundExitCode], ?_, rfl⟩
  simp only [executeCommandWithRedirections, h]
  rfl

/-- C7 witness: the amended statement at a concrete command. -/
theorem C7_signal_exit_code_witness :
    (runForegroundResult [] [] none (some (String.toList "SIGKILL"))).exitCode
        = 1 ∧
    (executeCommandWithRedirections (fun _ => true)
        ⟨String.toList "sleep", [String.toList "100"], []⟩
        ⟨[], [], none⟩).exitCode = 0 := by
  have h := C7_signal_exit_code [] [] (String.toList "SIGKILL")
    (fun _ => true) ⟨String.toList "sleep", [String.toList "100"], []⟩
    (by decide)
  exact ⟨h.1, h.2.2.1⟩

/-- C7 counterexample: in the Process Orchestrator
(`executeCommandWithRedirections`), a stage whose process is
signal-terminated (close code `null`) is reported with exit code 0 —
NOT with a non-zero exit code as the claim states. -/
theorem C7_counterexample :
    (executeCommandWithRedirections (fun _ => true)
        ⟨String.toList "sleep", [String.toList "100"], []⟩
        ⟨[], [], none⟩).exitCode = 0 := by decide

/-! ### C8: first output redirection wins -/

/-- C8: when a command carries several output redirections, the one
honored (by `executeCommandWithRedirections` and by the last stage of
`executePipeChain`, both of which select with
`redirections.find(r => r.type === > || r.type === >>)`) is exactly the
FIRST output redirection in the linear scan of the redirection list. -/
theorem C8_first_output_redirection_wins (rs : List Redirection) (i : Nat)
    (nm : List Char) (args : List (List Char))
    (h1 : i < rs.length)
    (h2 : isOutputRedir (rs.getD i default) = true)
    (h3 : ∀ j, j < i → isOutputRedir (rs.getD j default) = false) :
    outputRedirectionOf rs = some (rs.getD i default) ∧
    effectiveOutputTarget ⟨nm, args, rs⟩ =
      some ((rs.getD i default).target, (rs.getD i default).append) := by
  have hfind := find?_eq_getD_of_first isOutputRedir rs i h1 h2 h3
  refine ⟨hfind, ?_⟩
  simp [effectiveOutputTarget, outputRedirectionOf, hfind]

/-- C8 witness: `cmd < in > a >> b` honors the `> a` redirection. -/
theorem C8_first_output_redirection_wins_witness :
    outputRedirectionOf
        [⟨RedirectionType.input, String.toList "in", false⟩,
         ⟨RedirectionType.out, String.toList "a", false⟩,
         ⟨RedirectionType.appendOut, String.toList "b", true⟩] =
      some ⟨RedirectionType.out, String.toList "a", false⟩ ∧
    effectiveOutputTarget
        ⟨String.toList "cmd", [],
         [⟨RedirectionType.input, String.toList "in", false⟩,
          ⟨RedirectionType.out, String.toList "a", false⟩,
          ⟨RedirectionType.appendOut, String.toList "b", true⟩]⟩ =
      some (String.toList "a", false) := by
  have h := C8_first_output_redirection_wins
    [⟨RedirectionType.input, String.toList "in", false⟩,
     ⟨RedirectionType.out, String.toList "a", false⟩,
     ⟨RedirectionType.appendOut, String.toList "b", true⟩] 1
    (String.toList "cmd") [] (by decide) (by decide) (by decide)
  exact h

/-! ### C9: kill is only valid from the Running state -/

/-- C9 (amended): `killJob` succeeds exactly from the `running` state:
it then sends the named signal, reports success and synchronously marks
the job `stopped` (never `completed`); on a `stopped` job it sends
nothing and reports failure. -/
theorem C9_kill_requires_running (st : PMState) (id : Nat) (sig : List Char)
    (j : Job) (h : getJob st id = some j) :
    (j.status = JobStatus.running →
      (killJob true st id sig).1 = true ∧
      (killJob true st id sig).2.2 = [(id, sig)] ∧
      getJob (killJob true st id sig).2.1 id =
        some { j with status := JobStatus.stopped, endTimeSet := true } ∧
      ({ j with status := JobStatus.stopped, endTimeSet := true } : Job).status
        ≠ JobStatus.completed) ∧
    (j.status = JobStatus.stopped → killJob true st id sig = (false, st, [])) := by
  constructor
  · intro hr
    have hup := getJob_updateJob st id
      (fun j0 => { j0 with status := JobStatus.stopped, endTimeSet := true })
      (fun _ => rfl)
    simp [killJob, h, hr, hup]
  · intro hs
    simp [killJob, h, hs]

/-- C9 witness: concrete one-job tables, one running and one stopped. -/
theorem C9_kill_requires_running_witness :
    (killJob true ⟨[⟨1, [], JobStatus.running, false, false⟩], 2, none⟩ 1
      (String.toList "SIGTERM")).1 = true ∧
    killJob true ⟨[⟨1, [], JobStatus.stopped, false, false⟩], 2, none⟩ 1
        (String.toList "SIGTERM") =
      (false, ⟨[⟨1, [], JobStatus.stopped, false, false⟩], 2, none⟩, []) := by
  constructor
  · exact ((C9_kill_requires_running
      ⟨[⟨1, [], JobStatus.running, false, false⟩], 2, none⟩ 1
      (String.toList "SIGTERM") ⟨1, [], JobStatus.running, false, false⟩
      (by decide)).1 (by decide)).1
  · exact (C9_kill_requires_running
      ⟨[⟨1, [], JobStatus.stopped, false, false⟩], 2, none⟩ 1
      (String.toList "SIGTERM") ⟨1, [], JobStatus.stopped, false, false⟩
      (by decide)).2 (by decide)

/-- C9 counterexample: on a `stopped` job, `killJob` reports FAILURE
and sends no signal, contradicting the claim that kill is valid from
both the Running and the Stopped state. -/
theorem C9_counterexample :
    killJob true ⟨[⟨1, String.toList "sleep", JobStatus.stopped, true, false⟩],
        2, none⟩ 1 (String.toList "SIGTERM") =
      (false,
        ⟨[⟨1, String.toList "sleep", JobStatus.stopped, true, false⟩], 2, none⟩,
        []) := by decide

/-! ### C10: the current-foreground reference -/

/-- C10 (amended): the current-foreground reference is a single
optional slot (so at most one job ever holds it); `runForeground`
installs the new job on spawn and its exit/error handler clears the
slot, but `suspendJob` never touches it — in particular the slot still
refers to a suspended foreground job. -/
theorem C10_foreground_reference (st : PMState) (id : Nat) (cmd : List Char)
    (ok : Bool) :
    (runForegroundStart st cmd).1.currentForegroundJob = some st.nextJobId ∧
    (runForegroundOnExit st id).currentForegroundJob = none ∧
    (suspendJob ok st id).2.currentForegroundJob = st.currentForegroundJob := by
  refine ⟨rfl, rfl, ?_⟩
  unfold suspendJob
  cases getJob st id with
  | none => rfl
  | some j =>
    by_cases hs : j.status ≠ JobStatus.running
    · simp [hs]
    · cases ok <;> simp [hs, updateJob]

/-- C10 counterexample: start a foreground job, then successfully
suspend it — the current-foreground reference still refers to the (now
stopped) job, contradicting the claim that a successful suspend clears
it. -/
theorem C10_counterexample :
    (suspendJob true
      (runForegroundStart ⟨[], 1, none⟩ (String.toList "sleep 100")).1 1).1
        = true ∧
    (suspendJob true
      (runForegroundStart ⟨[], 1, none⟩ (String.toList "sleep 100")).1
        1).2.currentForegroundJob = some 1 ∧
    getCurrentForegroundJob
        (suspendJob true
          (runForegroundStart ⟨[], 1, none⟩ (String.toList "sleep 100")).1 1).2
      = some ⟨1, String.toList "sleep 100", JobStatus.stopped, false, false⟩ := by
  decide

/-! ### C3: chain splitting -/

/-- When the input contains no `;`, no `&&` and no `||`, the chain
scanner never splits: the whole input becomes a single piece.  In
particular a lone `&` is never a chain operator. -/
theorem chainSplitAux_noSplit :
    ∀ (s cur : List Char),
    (∀ c ∈ s, c ≠ ';') →
    containsPair '&' '&' s = false →
    containsPair '|' '|' s = false →
    chainSplitAux cur s = [(cur.reverse ++ s, none)]
  | [], cur, _, _, _ => by simp [chainSplitAux]
  | [c], cur, h1, _, _ => by
    have hc : ¬ (c = ';') := h1 c (by simp)
    simp [chainSplitAux, hc]
  | c :: c2 :: rest, cur, h1, h2, h3 => by
    have hc : ¬ (c = ';') := h1 c (by simp)
    simp only [containsPair, Bool.or_eq_false_iff, Bool.and_eq_false_iff,
      decide_eq_false_iff_not] at h2 h3
    have hamp : ¬ (c = '&' ∧ c2 = '&') := by
      rcases h2.1 with h | h
      · exact fun hh => h hh.1
      · exact fun hh => h hh.2
    have hpp : ¬ (c = '|' ∧ c2 = '|') := by
      rcases h3.1 with h | h
      · exact fun hh => h hh.1
      · exact fun hh => h hh.2
    have ih := chainSplitAux_noSplit (c2 :: rest) (c :: cur)
      (fun x hx => h1 x (List.mem_cons_of_mem _ hx)) h2.2 h3.2
    simp [chainSplitAux, hc, hamp, hpp, ih]

/-- C3 (amended): the chain-operator scan treats `&&` and `||`
atomically and there is no single-`&` (or single-`|`) chain operator:
an input containing none of the substrings `&&`, `||`, `;` is not a
chain and is never split (it yields at most its own trimmed text as the
single link).  However — contrary to the original claim — the scan is
NOT quote-aware: see the counterexample for a split inside an active
quote. -/
theorem C3_atomic_operators (s : List Char)
    (h1 : s.any (fun c => c = ';') = false)
    (h2 : containsPair '&' '&' s = false)
    (h3 : containsPair '|' '|' s = false) :
    isCommandChain s = false ∧
    parseCommandChain s =
      (if (trimChars s).isEmpty then [] else [⟨trimChars s, none⟩]) := by
  constructor
  · simp [isCommandChain, h1, h2, h3]
  · have h1' : ∀ c ∈ s, c ≠ ';' := by
      intro c hc hcontra
      have hany : s.any (fun c => decide (c = ';')) = true :=
        List.any_eq_true.mpr ⟨c, hc, by simp [hcontra]⟩
      rw [h1] at hany
      cases hany
    rw [parseCommandChain, chainSplitAux_noSplit s [] h1' h2 h3]
    by_cases he : (trimChars s).isEmpty
    · have he' : trimChars s = [] := List.isEmpty_iff.mp he
      simp [he, he']
    · have he' : ¬ (trimChars s = []) := fun hh => he (List.isEmpty_iff.mpr hh)
      simp [he, he']

/-- C3 witness: `a & b` has a lone `&` and is neither detected nor
split as a chain. -/
theorem C3_atomic_operators_witness :
    isCommandChain (String.toList "a & b") = false ∧
    parseCommandChain (String.toList "a & b") =
      (if (trimChars (String.toList "a & b")).isEmpty then []
       else [⟨trimChars (String.toList "a & b"), none⟩]) := by
  exact C3_atomic_operators (String.toList "a & b")
    (by decide) (by decide) (by decide)

/-- C3 counterexample: in the input the only `&&` occurrence lies
inside an active double quote, yet `parseCommandChain` splits the line
there into two links — the scan is not quote-aware, contradicting the
claim that operators split only outside an active quote. -/
theorem C3_counterexample :
    parseCommandChain (String.toList "echo \"a && b\"") =
      [⟨String.toList "echo \"a", some ChainOperator.andOp⟩,
       ⟨String.toList "b\"", none⟩] := by decide

/-! ### C5: whitespace inside quotes -/

/-- Scanning a quoted body: every character up to the closing quote
(spaces included) is appended verbatim to the current token. -/
theorem tokenizeAux_quoted :
    ∀ (body cur rest : List Char) (q : Char),
    (∀ c ∈ body, c ≠ q) →
    tokenizeAux (some q) cur (body ++ q :: rest) =
      tokenizeAux none (body.reverse ++ cur) rest
  | [], cur, rest, q, _ => by simp [tokenizeAux]
  | c :: body, cur, rest, q, h => by
    have hc : ¬ (c = q) := h c (by simp)
    have ih := tokenizeAux_quoted body (c :: cur) rest q
      (fun x hx => h x (by simp [hx]))
    simp [tokenizeAux, hc, ih]

/-- C5 (amended): the tokenizer itself preserves whitespace inside a
quoted region verbatim (a double-quoted body containing no `"` becomes
one token equal to the body, spaces and all, with the quotes stripped);
but — contrary to the original claim — `parsePipeline` first collapses
EVERY whitespace run, inside or outside quotes, to a single space, so
only the collapsed whitespace reaches the argument tokens. -/
theorem C5_quoted_whitespace (q : List Char)
    (h1 : ∀ c ∈ q, c ≠ dq)
    (h2 : ¬ q.isEmpty) :
    tokenize (dq :: (q ++ [dq])) = [q] ∧
    normalizeInput (String.toList "echo \"a  b\"") =
      String.toList "echo \"a b\"" := by
  constructor
  · have hq := tokenizeAux_quoted q [] [] dq h1
    have hne : q ≠ [] := fun hh => h2 (List.isEmpty_iff.mpr hh)
    have hrev : ¬ (q.reverse.isEmpty = true) := by
      intro hh
      exact hne (by simpa using List.isEmpty_iff.mp hh)
    rw [tokenize]
    rw [show tokenizeAux none [] (dq :: (q ++ [dq])) =
        tokenizeAux (some dq) [] (q ++ [dq]) by rw [tokenizeAux.eq_def]; rfl]
    rw [hq]
    simp [tokenizeAux, pushTok, hrev]
  · decide

/-- C5 witness: the body `a  b` (two spaces) survives tokenization
verbatim, while the pre-normalization collapses the same two spaces. -/
theorem C5_quoted_whitespace_witness :
    tokenize (dq :: (String.toList "a  b" ++ [dq])) = [String.toList "a  b"] ∧
    normalizeInput (String.toList "echo \"a  b\"") =
      String.toList "echo \"a b\"" :=
  C5_quoted_whitespace (String.toList "a  b") (by decide) (by decide)

/-- C5 counterexample: the input holds two spaces inside the quotes,
but pipeline parsing produces the argument `a b` with a single space —
whitespace sequences inside a quoted region are NOT preserved verbatim,
contradicting the claim. -/
theorem C5_counterexample :
    parsePipeline (String.toList "echo \"a  b\"") =
      Except.ok ⟨[⟨String.toList "echo", [String.toList "a b"], []⟩], false⟩ ∧
    String.toList "a b" ≠ String.toList "a  b" := by decide

/-! ### C6: malformed redirection -/

/-- C6 (amended): a redirection operator with no following token makes
`parseCommand` throw a missing-target error naming the offending
operator, but the thrown error aborts the WHOLE chain, not just the
offending pipeline: it propagates out of the chain loop (no remaining
link is evaluated and the outputs of earlier links are discarded) and
is caught only by `CommandExecutor.execute`, which returns a single
exit-1 result with the wrapped message. -/
theorem C6_malformed_redirection_aborts_chain
    (exec : Pipeline → CommandResult) (execReg : List Char → CommandResult)
    (input : List Char) (link : CommandChain) (rest : List CommandChain)
    (prevOp : Option ChainOperator) (last : CommandResult)
    (so se e t : List Char)
    (h1 : parsePipeline link.pipeline = Except.error e)
    (h2 : shouldExec prevOp last.exitCode = true)
    (h3 : isPipelineCommand input = true)
    (h4 : executeCommandPM exec input = Except.error e)
    (h5 : isRedirTok t = true) :
    chainLoop (pipelineRunner exec) prevOp last so se (link :: rest) =
      Except.error e ∧
    executeCE exec execReg input = ⟨[], pipelineErrMsg e, 1⟩ ∧
    parseCmdLoop [t] = Except.error (missingTargetMsg t) := by
  refine ⟨?_, ?_, ?_⟩
  · simp [chainLoop, h2, pipelineRunner, h1, Except.map]
  · simp [executeCE, h3, h4]
  · simp [parseCmdLoop, h5]

/-- C6 witness: the amended statement at the concrete chain
`echo hi > ; echo B`. -/
theorem C6_malformed_redirection_witness :
    executeCE (fun _ => ⟨[], [], 0⟩) (fun _ => ⟨[], [], 0⟩)
        (String.toList "echo hi > ; echo B") =
      ⟨[], pipelineErrMsg (missingTargetMsg ['>']), 1⟩ ∧
    parseCmdLoop [['>']] = Except.error (missingTargetMsg ['>']) := by
  have h := C6_malformed_redirection_aborts_chain
    (fun _ => ⟨[], [], 0⟩) (fun _ => ⟨[], [], 0⟩)
    (String.toList "echo hi > ; echo B")
    ⟨String.toList "echo hi >", some ChainOperator.semi⟩
    [⟨String.toList "echo B", none⟩] none ⟨[], [], 0⟩ [] []
    (missingTargetMsg ['>']) ['>']
    (by decide) (by decide) (by decide) (by decide) (by decide)
  exact ⟨h.2.1, h.2.2⟩

/-- C6 counterexample: in the chain `echo hi > ; echo B` the first
pipeline has a malformed redirection; under the claim the second link
would still run (the oracle gives it stdout `A`), but the code aborts
the whole chain: the result is the wrapped parse error with empty
stdout and exit 1, and the second link is never evaluated. -/
theorem C6_counterexample :
    executeCE (fun _ => ⟨['A'], [], 0⟩) (fun _ => ⟨[], [], 0⟩)
        (String.toList "echo hi > ; echo B") =
      ⟨[], pipelineErrMsg (missingTargetMsg ['>']), 1⟩ := by decide

/-! ### C1: chain short-circuit semantics -/

/-- Defaulted `getLast?` ignores the default on a cons cell. -/
theorem getLast?_getD_cons {α : Type} :
    ∀ (l : List α) (a d : α), ((a :: l).getLast?).getD d = (l.getLast?).getD a
  | [], a, d => by simp
  | b :: t, a, d => by
    rw [List.getLast?_cons_cons]
    rw [getLast?_getD_cons t b d, getLast?_getD_cons t b a]

/-- The second component of a defaulted `getLast?` does not depend on
the boolean of the default. -/
theorem lastExit_default_irrel (tr : List (Bool × CommandResult))
    (r : CommandResult) (b1 b2 : Bool) :
    ((tr.getLast?).getD (b1, r)).2 = ((tr.getLast?).getD (b2, r)).2 := by
  cases tr.getLast? <;> rfl

/-- A successful `parseOk` yields a successful `pipelineRunner`. -/
theorem pipelineRunner_ok (exec : Pipeline → CommandResult) (s : List Char)
    (h : parseOk s = true) :
    ∃ r, pipelineRunner exec s = Except.ok r := by
  unfold parseOk at h
  unfold pipelineRunner
  cases hp : parsePipeline s with
  | ok p => exact ⟨exec p, by simp [Except.map]⟩
  | error e => rw [hp] at h; cases h

/-- One step of the chain trace: the head records the `shouldExecute`
decision and the resulting `lastResult`, and the tail is the trace of
the remaining links. -/
theorem chainTrace_cons (exec : Pipeline → CommandResult)
    (link : CommandChain) (rest : List CommandChain)
    (prevOp : Option ChainOperator) (last : CommandResult)
    (h : parseOk link.pipeline = true) :
    ∃ e1 : Bool × CommandResult,
      chainTrace (pipelineRunner exec) prevOp last (link :: rest) =
        e1 :: chainTrace (pipelineRunner exec) link.operator e1.2 rest ∧
      e1.1 = shouldExec prevOp last.exitCode ∧
      (e1.1 = true → pipelineRunner exec link.pipeline = Except.ok e1.2) ∧
      (e1.1 = false →
        e1.2 = (if prevOp = some ChainOperator.andOp then skipFailResult
                else last)) := by
  by_cases hse : shouldExec prevOp last.exitCode = true
  · obtain ⟨r, hr⟩ := pipelineRunner_ok exec link.pipeline h
    refine ⟨(true, r), ?_, by simp [hse], fun _ => hr, by simp⟩
    simp [chainTrace, hse, hr]
  · have hse' : shouldExec prevOp last.exitCode = false := by
      simpa using hse
    refine ⟨(false,
      if prevOp = some ChainOperator.andOp then skipFailResult else last),
      ?_, by simp [hse'], by simp, fun _ => rfl⟩
    simp [chainTrace, hse']

/-- Length of the chain trace when every link parses. -/
theorem chainTrace_length (exec : Pipeline → CommandResult) :
    ∀ (chains : List CommandChain) (prevOp : Option ChainOperator)
      (last : CommandResult),
    (∀ link ∈ chains, parseOk link.pipeline = true) →
    (chainTrace (pipelineRunner exec) prevOp last chains).length =
      chains.length
  | [], _, _, _ => by simp [chainTrace]
  | link :: rest, prevOp, last, hok => by
    obtain ⟨e1, he, -, -, -⟩ :=
      chainTrace_cons exec link rest prevOp last (hok link (by simp))
    rw [he]
    simp [chainTrace_length exec rest link.operator e1.2
      (fun l hl => hok l (List.mem_cons_of_mem _ hl))]

/-- The chain loop returns exactly the outputs and exit code read off
the chain trace. -/
theorem chainLoop_trace (exec : Pipeline → CommandResult) :
    ∀ (chains : List CommandChain) (prevOp : Option ChainOperator)
      (last : CommandResult) (so se : List Char),
    (∀ link ∈ chains, parseOk link.pipeline = true) →
    chainLoop (pipelineRunner exec) prevOp last so se chains =
      Except.ok
        ⟨outFold so (chainTrace (pipelineRunner exec) prevOp last chains),
         errFold se (chainTrace (pipelineRunner exec) prevOp last chains),
         lastExitOf last (chainTrace (pipelineRunner exec) prevOp last chains)⟩
  | [], prevOp, last, so, se, _ => by
    simp [chainLoop, chainTrace, outFold, errFold, lastExitOf]
  | link :: rest, prevOp, last, so, se, hok => by
    have hok' : ∀ l ∈ rest, parseOk l.pipeline = true :=
      fun l hl => hok l (List.mem_cons_of_mem _ hl)
    by_cases hse : shouldExec prevOp last.exitCode = true
    · obtain ⟨r, hr⟩ := pipelineRunner_ok exec link.pipeline (hok link (by simp))
      have ih := chainLoop_trace exec rest link.operator r
        (combineOut so r.stdout) (combineOut se r.stderr) hok'
      rw [show chainLoop (pipelineRunner exec) prevOp last so se (link :: rest)
          = chainLoop (pipelineRunner exec) link.operator r
              (combineOut so r.stdout) (combineOut se r.stderr) rest by
        simp [chainLoop, hse, hr]]
      rw [ih]
      rw [show chainTrace (pipelineRunner exec) prevOp last (link :: rest)
          = (true, r) :: chainTrace (pipelineRunner exec) link.operator r rest
          by simp [chainTrace, hse, hr]]
      simp [outFold, errFold, lastExitOf, getLast?_getD_cons]
    · have hse' : shouldExec prevOp last.exitCode = false := by simpa using hse
      have ih := chainLoop_trace exec rest link.operator
        (if prevOp = some ChainOperator.andOp then skipFailResult else last)
        so se hok'
      rw [show chainLoop (pipelineRunner exec) prevOp last so se (link :: rest)
          = chainLoop (pipelineRunner exec) link.operator
              (if prevOp = some ChainOperator.andOp then skipFailResult
               else last) so se rest by
        simp [chainLoop, hse']]
      rw [ih]
      rw [show chainTrace (pipelineRunner exec) prevOp last (link :: rest)
          = (false,
              if prevOp = some ChainOperator.andOp then skipFailResult
              else last)
            :: chainTrace (pipelineRunner exec) link.operator
              (if prevOp = some ChainOperator.andOp then skipFailResult
               else last) rest
          by simp [chainTrace, hse']]
      simp only [outFold, errFold, lastExitOf, List.foldl_cons, if_neg,
        Bool.false_eq_true, not_false_eq_true, getLast?_getD_cons]
      rw [lastExit_default_irrel _ _ false true]

/-- Successive chain-trace entries are related by the `shouldExecute`
rule applied to the recorded operator and the previous `lastResult`. -/
theorem chainTrace_step (exec : Pipeline → CommandResult) :
    ∀ (chains : List CommandChain) (prevOp : Option ChainOperator)
      (last : CommandResult) (i : Nat),
    (∀ link ∈ chains, parseOk link.pipeline = true) →
    i + 1 < chains.length →
    (((chainTrace (pipelineRunner exec) prevOp last chains).getD (i + 1)
          default).1 =
        shouldExec ((chains.getD i default).operator)
          (((chainTrace (pipelineRunner exec) prevOp last chains).getD i
              default).2.exitCode)) ∧
    ((((chainTrace (pipelineRunner exec) prevOp last chains).getD (i + 1)
          default).1 = false) →
      ((chainTrace (pipelineRunner exec) prevOp last chains).getD (i + 1)
          default).2 =
        (if (chains.getD i default).operator = some ChainOperator.andOp
         then skipFailResult
         else ((chainTrace (pipelineRunner exec) prevOp last chains).getD i
            default).2))
  | [], _, _, i, _, h => absurd h (by simp)
  | link :: rest, prevOp, last, i, hok, h => by
    obtain ⟨e1, he, -, -, -⟩ :=
      chainTrace_cons exec link rest prevOp last (hok link (by simp))
    have hok' : ∀ l ∈ rest, parseOk l.pipeline = true :=
      fun l hl => hok l (List.mem_cons_of_mem _ hl)
    match i with
    | 0 =>
      have hrest : rest ≠ [] := by
        intro hh
        rw [hh] at h
        simp at h
      obtain ⟨link2, rest2, hr2⟩ := List.exists_cons_of_ne_nil hrest
      subst hr2
      obtain ⟨e2, he2, he2d, -, he2s⟩ :=
        chainTrace_cons exec link2 rest2 link.operator e1.2
          (hok' link2 (by simp))
      rw [he, he2]
      refine ⟨by simpa using he2d, fun hf => ?_⟩
      have := he2s (by simpa using hf)
      simpa using this
    | i + 1 =>
      rw [he]
      have ih := chainTrace_step exec rest link.operator e1.2 i hok'
        (by simpa using h)
      simpa using ih

/-- Decision table of `shouldExecute`, spelled out. -/
theorem shouldExec_iff (op : Option ChainOperator) (ec : Nat) :
    shouldExec op ec = true ↔
      (op = none ∨ op = some ChainOperator.semi ∨
       (op = some ChainOperator.andOp ∧ ec = 0) ∨
       (op = some ChainOperator.orOp ∧ ec ≠ 0)) := by
  cases op with
  | none => simp [shouldExec]
  | some o => cases o <;> by_cases hec : ec = 0 <;> simp [shouldExec, hec]

/-- C1: chain short-circuit semantics.  Over the execution trace of
`executeCommandChain` (one entry per link: executed flag and resulting
`lastResult`), link `i+1` executes iff link `i`'s operator is `;` or
absent, or is `&&` with preceding exit code 0, or is `||` with
preceding exit code non-zero; a link skipped after `&&` carries exit
code 1 forward and one skipped after `||` keeps the previous result;
and the chain returns the newline-joined outputs of the executed links
only, with precisely the final `lastResult`'s exit code. -/
theorem C1_chain_short_circuit (exec : Pipeline → CommandResult)
    (chains : List CommandChain) (i : Nat)
    (hok : ∀ link ∈ chains, parseOk link.pipeline = true)
    (h : i + 1 < chains.length) :
    (chainTraceTop exec chains).length = chains.length ∧
    (((chainTraceTop exec chains).getD (i + 1) default).1 = true ↔
      ((chains.getD i default).operator = none ∨
       (chains.getD i default).operator = some ChainOperator.semi ∨
       ((chains.getD i default).operator = some ChainOperator.andOp ∧
         ((chainTraceTop exec chains).getD i default).2.exitCode = 0) ∨
       ((chains.getD i default).operator = some ChainOperator.orOp ∧
         ((chainTraceTop exec chains).getD i default).2.exitCode ≠ 0))) ∧
    (((chainTraceTop exec chains).getD (i + 1) default).1 = false →
      (chains.getD i default).operator = some ChainOperator.andOp →
      ((chainTraceTop exec chains).getD (i + 1) default).2 = skipFailResult) ∧
    (((chainTraceTop exec chains).getD (i + 1) default).1 = false →
      (chains.getD i default).operator = some ChainOperator.orOp →
      ((chainTraceTop exec chains).getD (i + 1) default).2 =
        ((chainTraceTop exec chains).getD i default).2) ∧
    executeCommandChain exec chains =
      Except.ok ⟨outFold [] (chainTraceTop exec chains),
                 errFold [] (chainTraceTop exec chains),
                 lastExitOf ⟨[], [], 0⟩ (chainTraceTop exec chains)⟩ := by
  have hstep := chainTrace_step exec chains none ⟨[], [], 0⟩ i hok h
  refine ⟨chainTrace_length exec chains none ⟨[], [], 0⟩ hok, ?_, ?_, ?_, ?_⟩
  · rw [show chainTraceTop exec chains =
        chainTrace (pipelineRunner exec) none ⟨[], [], 0⟩ chains from rfl]
    rw [hstep.1]
    exact shouldExec_iff _ _
  · intro hf hop
    have h2 := hstep.2 (by simpa [chainTraceTop] using hf)
    rw [hop] at h2
    simpa [chainTraceTop] using h2
  · intro hf hop
    have h2 := hstep.2 (by simpa [chainTraceTop] using hf)
    rw [hop] at h2
    simpa [chainTraceTop] using h2
  · exact chainLoop_trace exec chains none ⟨[], [], 0⟩ [] [] hok

/-- C1 witness: the two-link chain `a && b` under an oracle where every
pipeline succeeds. -/
theorem C1_chain_short_circuit_witness :
    (chainTraceTop (fun _ => ⟨[], [], 0⟩)
        [⟨['a'], some ChainOperator.andOp⟩, ⟨['b'], none⟩]).length =
      ([⟨['a'], some ChainOperator.andOp⟩, ⟨['b'], none⟩] :
        List CommandChain).length ∧
    executeCommandChain (fun _ => ⟨[], [], 0⟩)
        [⟨['a'], some ChainOperator.andOp⟩, ⟨['b'], none⟩] =
      Except.ok
        ⟨outFold [] (chainTraceTop (fun _ => ⟨[], [], 0⟩)
            [⟨['a'], some ChainOperator.andOp⟩, ⟨['b'], none⟩]),
         errFold [] (chainTraceTop (fun _ => ⟨[], [], 0⟩)
            [⟨['a'], some ChainOperator.andOp⟩, ⟨['b'], none⟩]),
         lastExitOf ⟨[], [], 0⟩ (chainTraceTop (fun _ => ⟨[], [], 0⟩)
            [⟨['a'], some ChainOperator.andOp⟩, ⟨['b'], none⟩])⟩ := by
  have h := C1_chain_short_circuit (fun _ => ⟨[], [], 0⟩)
    [⟨['a'], some ChainOperator.andOp⟩, ⟨['b'], none⟩] 0
    (by decide) (by decide)
  exact ⟨h.1, h.2.2.2.2⟩

/-! ### C2: pipe-chain exit code -/

/-- Close events of stages other than the last never change the
recorded final exit code. -/
theorem closeFold_notMem (lastIdx : Nat) (codes : List (Option Nat)) :
    ∀ (order : List Nat) (acc : Nat), lastIdx ∉ order →
    order.foldl
        (fun acc i =>
          if i = lastIdx then closeCodeOrZero (codes.getD i none) else acc)
        acc = acc
  | [], _, _ => rfl
  | o :: rest, acc, h => by
    have ho : ¬ (o = lastIdx) := fun hh => h (hh ▸ List.mem_cons_self o rest)
    rw [List.foldl_cons, if_neg ho]
    exact closeFold_notMem lastIdx codes rest acc
      (fun hm => h (List.mem_cons_of_mem _ hm))

/-- Once the last stage's close event has fired (in any arrival order),
the recorded final exit code is its coerced close code. -/
theorem closeFold_mem (lastIdx : Nat) (codes : List (Option Nat)) :
    ∀ (order : List Nat) (acc : Nat), lastIdx ∈ order →
    order.foldl
        (fun acc i =>
          if i = lastIdx then closeCodeOrZero (codes.getD i none) else acc)
        acc = closeCodeOrZero (codes.getD lastIdx none)
  | [], _, h => absurd h (List.not_mem_nil _)
  | o :: rest, acc, h => by
    rw [List.foldl_cons]
    by_cases ho : o = lastIdx
    · subst ho
      rw [if_pos rfl]
      by_cases hm : o ∈ rest
      · exact closeFold_mem o codes rest _ hm
      · exact closeFold_notMem o codes rest _ hm
    · rw [if_neg ho]
      have hm : lastIdx ∈ rest := by
        rcases List.mem_cons.mp h with hh | hh
        · exact absurd hh.symm ho
        · exact hh
      exact closeFold_mem lastIdx codes rest acc hm

/-- C2: for an OS-only pipe chain whose close events fire in any order
covering every stage, the returned exit code is exactly the last
stage's exit code, whatever the earlier stages' codes are. -/
theorem C2_pipe_exit_is_last_stage (o : ExecOracles)
    (openOk : List Char → Bool) (cmds : List PipelineCommand)
    (env : PipeChainEnv) (k : Nat)
    (hjs : hasJSCommands cmds = false)
    (hne : cmds ≠ [])
    (hin : ∀ r, inputRedirectionOf ((cmds.headD default).redirections) =
      some r → openOk r.target = true)
    (harr : env.arrival.Perm (List.range cmds.length))
    (hk : env.closeCodes.getD (cmds.length - 1) none = some k) :
    (executePipeChain o openOk cmds env).exitCode = k := by
  have hpos : 0 < cmds.length := List.length_pos.mpr hne
  have hmem : cmds.length - 1 ∈ env.arrival :=
    harr.mem_iff.mpr (List.mem_range.mpr (Nat.sub_lt hpos Nat.one_pos))
  have hbody : (pipeChainBody cmds env).exitCode = k := by
    simp only [pipeChainBody]
    rw [show closeFold (cmds.length - 1) env.closeCodes env.arrival =
        closeCodeOrZero (env.closeCodes.getD (cmds.length - 1) none) from
      closeFold_mem (cmds.length - 1) env.closeCodes env.arrival 0 hmem]
    rw [hk]
    rfl
  rw [executePipeChain, if_neg (by simp [hjs])]
  obtain ⟨c0, rest, hc⟩ := List.exists_cons_of_ne_nil hne
  subst hc
  rw [executePipeChainOS]
  simp only [List.head?_cons]
  cases hir : inputRedirectionOf c0.redirections with
  | none => exact hbody
  | some r =>
    have hopen : openOk r.target = true := hin r hir
    show (if openOk r.target = true then pipeChainBody (c0 :: rest) env
      else ⟨[], cannotOpenMsg r.target, 1⟩).exitCode = k
    rw [if_pos hopen]
    exact hbody

/-- C2 witness: a two-stage chain in the spirit of `true | false`
(stage codes 0 then 1) returns the last stage's exit code 1. -/
theorem C2_pipe_exit_is_last_stage_witness :
    (executePipeChain
        ⟨fun _ _ => ⟨[], [], 0⟩, fun _ => ⟨[], [], 0⟩, fun _ _ => ⟨[], [], 0⟩⟩
        (fun _ => true)
        [⟨String.toList "true", [], []⟩, ⟨String.toList "false", [], []⟩]
        ⟨[[], []], [[], []], [some 0, some 1], [0, 1]⟩).exitCode = 1 := by
  exact C2_pipe_exit_is_last_stage
    ⟨fun _ _ => ⟨[], [], 0⟩, fun _ => ⟨[], [], 0⟩, fun _ _ => ⟨[], [], 0⟩⟩
    (fun _ => true)
    [⟨String.toList "true", [], []⟩, ⟨String.toList "false", [], []⟩]
    ⟨[[], []], [[], []], [some 0, some 1], [0, 1]⟩ 1
    (by decide) (by decide) (by decide) (by decide) (by decide)

/-! ### C4: mixed pipelines run strictly sequentially -/

/-- The mixed-pipeline trace of a non-empty stage list is non-empty. -/
theorem mixedTrace_ne_nil (o : ExecOracles) (isF : Bool) (input : List Char)
    (cmds : List PipelineCommand) (h : cmds ≠ []) :
    mixedTrace o isF input cmds ≠ [] := by
  cases cmds with
  | nil => exact absurd rfl h
  | cons cmd rest =>
    rw [mixedTrace]
    split <;> simp

/-- Defaulted `getLast?` of a non-empty list ignores the default. -/
theorem getLast?_getD_irrel {α : Type} (l : List α) (d1 d2 : α)
    (h : l ≠ []) : (l.getLast?).getD d1 = (l.getLast?).getD d2 := by
  cases hl : l.getLast? with
  | some x => rfl
  | none => exact absurd (List.getLast?_eq_none_iff.mp hl) h

/-- The mixed-pipeline loop returns the result of the last stage that
ran (or the initial result when there are no stages). -/
theorem mixedLoop_eq_trace (o : ExecOracles) :
    ∀ (cmds : List PipelineCommand) (isF : Bool) (input : List Char)
      (fin : CommandResult),
    mixedLoop o isF input fin cmds =
      ((mixedTrace o isF input cmds).getLast?).getD fin
  | [], _, _, fin => by simp [mixedLoop, mixedTrace]
  | cmd :: rest, isF, input, fin => by
    rw [mixedLoop, mixedTrace]
    by_cases hr : (runStage o isF input cmd).exitCode ≠ 0
    · simp [hr]
    · rw [if_neg hr, if_neg hr]
      rw [mixedLoop_eq_trace o rest false (runStage o isF input cmd).stdout
        (runStage o isF input cmd)]
      rw [getLast?_getD_cons]

/-- The mixed-pipeline trace never exceeds the stage list. -/
theorem mixedTrace_length_le (o : ExecOracles) :
    ∀ (cmds : List PipelineCommand) (isF : Bool) (input : List Char),
    (mixedTrace o isF input cmds).length ≤ cmds.length
  | [], _, _ => by simp [mixedTrace]
  | cmd :: rest, isF, input => by
    rw [mixedTrace]
    by_cases hr : (runStage o isF input cmd).exitCode ≠ 0
    · simp [hr]
    · rw [if_neg hr]
      simpa using
        mixedTrace_length_le o rest false (runStage o isF input cmd).stdout

/-- A mixed pipeline stops before the end of the stage list only when
the last stage that ran failed. -/
theorem mixedTrace_early_stop (o : ExecOracles) :
    ∀ (cmds : List PipelineCommand) (isF : Bool) (input : List Char),
    (mixedTrace o isF input cmds).length < cmds.length →
    (((mixedTrace o isF input cmds).getLast?).getD default).exitCode ≠ 0
  | [], _, _, h => absurd h (by simp [mixedTrace])
  | cmd :: rest, isF, input, h => by
    rw [mixedTrace] at h ⊢
    by_cases hr : (runStage o isF input cmd).exitCode ≠ 0
    · rw [if_pos hr]
      simpa using hr
    · rw [if_neg hr] at h ⊢
      have hlen : (mixedTrace o false (runStage o isF input cmd).stdout
          rest).length < rest.length := by simpa using h
      have hrest : rest ≠ [] := by
        intro hh
        rw [hh] at hlen
        simp [mixedTrace] at hlen
      have htr : mixedTrace o false (runStage o isF input cmd).stdout rest
          ≠ [] :=
        mixedTrace_ne_nil o false (runStage o isF input cmd).stdout rest hrest
      have ih := mixedTrace_early_stop o rest false
        (runStage o isF input cmd).stdout hlen
      rw [getLast?_getD_cons]
      rw [getLast?_getD_irrel _ _ default htr]
      exact ih

/-- Each later stage of a mixed pipeline runs on the previous stage's
captured stdout, and only after the previous stage exited 0. -/
theorem mixedTrace_succ (o : ExecOracles) :
    ∀ (cmds : List PipelineCommand) (isF : Bool) (input : List Char)
      (i : Nat),
    i + 1 < (mixedTrace o isF input cmds).length →
    (mixedTrace o isF input cmds).getD (i + 1) default =
      runStage o false ((mixedTrace o isF input cmds).getD i default).stdout
        (cmds.getD (i + 1) default) ∧
    ((mixedTrace o isF input cmds).getD i default).exitCode = 0
  | [], _, _, i, h => absurd h (by simp [mixedTrace])
  | cmd :: rest, isF, input, i, h => by
    by_cases hr : (runStage o isF input cmd).exitCode ≠ 0
    · rw [mixedTrace, if_pos hr] at h
      simp at h
    · have hr0 : (runStage o isF input cmd).exitCode = 0 := by simpa using hr
      rw [mixedTrace, if_neg hr] at h ⊢
      match i with
      | 0 =>
        have htr : mixedTrace o false (runStage o isF input cmd).stdout rest
            ≠ [] := by
          intro hh
          rw [hh] at h
          simp at h
        have hrest : rest ≠ [] := by
          intro hh
          rw [hh] at htr
          simp [mixedTrace] at htr
        obtain ⟨c2, rest2, hc2⟩ := List.exists_cons_of_ne_nil hrest
        subst hc2
        refine ⟨?_, by simpa using hr0⟩
        rw [show ((runStage o isF input cmd
            :: mixedTrace o false (runStage o isF input cmd).stdout
              (c2 :: rest2)).getD 1 default) =
          (mixedTrace o false (runStage o isF input cmd).stdout
            (c2 :: rest2)).getD 0 default from rfl]
        rw [mixedTrace]
        split <;> simp
      | i + 1 =>
        have ih := mixedTrace_succ o rest false
          (runStage o isF input cmd).stdout i (by simpa using h)
        simpa using ih

/-- The first stage of a mixed pipeline runs as the first stage (no
piped input). -/
theorem mixedTrace_head (o : ExecOracles) (cmds : List PipelineCommand)
    (isF : Bool) (input : List Char) (h : cmds ≠ []) :
    (mixedTrace o isF input cmds).getD 0 default =
      runStage o isF input (cmds.getD 0 default) := by
  obtain ⟨cmd, rest, hc⟩ := List.exists_cons_of_ne_nil h
  subst hc
  rw [mixedTrace]
  split <;> simp

/-- C4: a pipeline containing script (js / npm:) stages is dispatched
to `executeMixedPipeline`, which is strict sequential composition: the
stages that ran form a trace whose first entry is stage 0 run without
piped input, each later entry is the next stage run on the previous
entry's captured stdout after that entry exited 0, the trace stops
early only when its last entry failed, and the pipeline returns exactly
the last entry. -/
theorem C4_mixed_pipeline_sequential (o : ExecOracles)
    (openOk : List Char → Bool) (env : PipeChainEnv)
    (cmds : List PipelineCommand) (i : Nat)
    (hjs : hasJSCommands cmds = true)
    (h : i + 1 < (mixedTrace o true [] cmds).length) :
    executePipeChain o openOk cmds env = executeMixedPipeline o cmds ∧
    executeMixedPipeline o cmds =
      ((mixedTrace o true [] cmds).getLast?).getD ⟨[], [], 0⟩ ∧
    (mixedTrace o true [] cmds).length ≤ cmds.length ∧
    ((mixedTrace o true [] cmds).length < cmds.length →
      (((mixedTrace o true [] cmds).getLast?).getD default).exitCode ≠ 0) ∧
    (mixedTrace o true [] cmds).getD (i + 1) default =
      runStage o false
        ((mixedTrace o true [] cmds).getD i default).stdout
        (cmds.getD (i + 1) default) ∧
    ((mixedTrace o true [] cmds).getD i default).exitCode = 0 ∧
    (mixedTrace o true [] cmds).getD 0 default =
      runStage o true [] (cmds.getD 0 default) := by
  have hstep := mixedTrace_succ o cmds true [] i h
  have hne : cmds ≠ [] := by
    intro hh
    rw [hh] at h
    simp [mixedTrace] at h
  refine ⟨by simp [executePipeChain, hjs], ?_, mixedTrace_length_le o cmds true [],
    mixedTrace_early_stop o cmds true [], hstep.1, hstep.2,
    mixedTrace_head o cmds true [] hne⟩
  exact mixedLoop_eq_trace o cmds true [] ⟨[], [], 0⟩

/-- C4 witness: the mixed pipeline `js ... | cat` with concrete stage
oracles. -/
theorem C4_mixed_pipeline_sequential_witness :
    executePipeChain
        ⟨fun cmd inp => ⟨cmd.command ++ inp, [], 0⟩,
         fun _ => ⟨String.toList "x", [], 0⟩,
         fun _ inp => ⟨inp, [], 0⟩⟩
        (fun _ => true)
        [⟨String.toList "js", [], []⟩, ⟨String.toList "cat", [], []⟩]
        ⟨[], [], [], []⟩ =
      executeMixedPipeline
        ⟨fun cmd inp => ⟨cmd.command ++ inp, [], 0⟩,
         fun _ => ⟨String.toList "x", [], 0⟩,
         fun _ inp => ⟨inp, [], 0⟩⟩
        [⟨String.toList "js", [], []⟩, ⟨String.toList "cat", [], []⟩] ∧
    (mixedTrace
        ⟨fun cmd inp => ⟨cmd.command ++ inp, [], 0⟩,
         fun _ => ⟨String.toList "x", [], 0⟩,
         fun _ inp => ⟨inp, [], 0⟩⟩ true []
        [⟨String.toList "js", [], []⟩, ⟨String.toList "cat", [], []⟩]).getD 1
        default =
      runStage
        ⟨fun cmd inp => ⟨cmd.command ++ inp, [], 0⟩,
         fun _ => ⟨String.toList "x", [], 0⟩,
         fun _ inp => ⟨inp, [], 0⟩⟩ false
        ((mixedTrace
            ⟨fun cmd inp => ⟨cmd.command ++ inp, [], 0⟩,
             fun _ => ⟨String.toList "x", [], 0⟩,
             fun _ inp => ⟨inp, [], 0⟩⟩ true []
            [⟨String.toList "js", [], []⟩,
             ⟨String.toList "cat", [], []⟩]).getD 0 default).stdout
        (([⟨String.toList "js", [], []⟩, ⟨String.toList "cat", [], []⟩] :
            List PipelineCommand).getD 1 default) := by
  have h := C4_mixed_pipeline_sequential
    ⟨fun cmd inp => ⟨cmd.command ++ inp, [], 0⟩,
     fun _ => ⟨String.toList "x", [], 0⟩,
     fun _ inp => ⟨inp, [], 0⟩⟩
    (fun _ => true) ⟨[], [], [], []⟩
    [⟨String.toList "js", [], []⟩, ⟨String.toList "cat", [], []⟩] 0
    (by decide) (by decide)
  exact ⟨h.1, h.2.2.2.2.1⟩

end Jsh
